import Mathlib

/-!
Shallow embedding of the EchoVault voice-recording application, translated
from the TypeScript sources:

* `src/hooks/use-audio-recorder.tsx`   — recorder duration counter
* `supabase/functions/analyze-recording/index.ts` — analysis service
* `supabase/functions/transcribe-audio/index.ts`  — transcription service
* the `RecordingInterface` component (`handleSaveAndTranscribe`) — pipeline
* `src/components/knowledge-graph.tsx` — tag co-occurrence graph
* `src/components/search-interface.tsx` — search

JavaScript string primitives (`toLowerCase`, `includes`, `<` on strings,
`trim`, `padStart`) are re-implemented below over `List Char` so that all
definitions kernel-reduce; host primitives with no sensible pure model
(`JSON.parse`) are taken as explicit function parameters.
-/

namespace EchoVault

/-! ### JavaScript string primitives, re-implemented over `List Char` -/

/-- Model of JavaScript `c.toLowerCase()` on a single character. -/
def lowerChar (c : Char) : Char := c.toLower

/-- Model of JavaScript `s.toLowerCase()`. -/
def lowerStr (s : String) : String := String.mk (s.data.map lowerChar)

/-- Character-list version of "needle is a leading segment of hay". -/
def startsWithChars : List Char → List Char → Bool
  | [], _ => true
  | _ :: _, [] => false
  | a :: as, b :: bs => a = b && startsWithChars as bs

/-- Character-list version of "needle occurs contiguously inside hay". -/
def containsChars (needle : List Char) : List Char → Bool
  | [] => needle.isEmpty
  | c :: t => startsWithChars needle (c :: t) || containsChars needle t

/-- Model of JavaScript `hay.includes(needle)` (substring containment). -/
def containsStr (hay needle : String) : Bool := containsChars needle.data hay.data

/-- Lexicographic code-unit comparison on character lists, as used by the
JavaScript `<` operator on strings. -/
def charsLt : List Char → List Char → Bool
  | [], [] => false
  | [], _ :: _ => true
  | _ :: _, [] => false
  | a :: as, b :: bs => decide (a.val < b.val) || (a = b && charsLt as bs)

/-- Model of JavaScript `a < b` on strings. -/
def strLtB (a b : String) : Bool := charsLt a.data b.data

/-- Whitespace test used by `trim`. -/
def isWs (c : Char) : Bool := c.isWhitespace

/-- Model of JavaScript `s.trim()`. -/
def trimStr (s : String) : String :=
  String.mk (((s.data.dropWhile isWs).reverse.dropWhile isWs).reverse)

/-- Model of JavaScript `s.padStart(2, '0')`. -/
def padStart2 (s : String) : String :=
  if s.length < 2 then String.mk (List.replicate (2 - s.length) '0') ++ s else s

/-! ### Recorder duration counter (`use-audio-recorder.tsx`, `updateDuration`)

The hook stores `startTimeRef.current` (milliseconds since epoch, `0` while
unset) and on each one-second tick recomputes the display from
`Date.now() - startTimeRef.current`.  Clock values are modelled as natural
numbers of milliseconds; the theorems assume `startTime ≤ now`, which holds
for any monotone wall clock once recording has started. -/

/-- Translation of `updateDuration`: `none` models the early return taken
when `startTimeRef.current` is unset (`0`), otherwise the formatted string
written to the `duration` state. -/
def updateDuration (startTime now : Nat) : Option String :=
  if startTime = 0 then none
  else
    let elapsed := now - startTime
    let seconds := elapsed / 1000
    let minutes := seconds / 60
    let remainingSeconds := seconds % 60
    some (padStart2 (Nat.repr minutes) ++ ":" ++ padStart2 (Nat.repr remainingSeconds))

/-- Specification-side formatter: a total number of whole seconds rendered
as zero-padded `MM:SS`, written independently of `padStart2`. -/
def pad2 (n : Nat) : String := if n < 10 then "0" ++ Nat.repr n else Nat.repr n

/-- Specification-side `MM:SS` rendering of a whole-second count. -/
def formatMMSS (totalSeconds : Nat) : String :=
  pad2 (totalSeconds / 60) ++ ":" ++ pad2 (totalSeconds % 60)

/-! Auxiliary facts about the length of decimal representations, needed to
identify the JavaScript `padStart(2, '0')` with the independent `pad2`. -/

theorem toDigitsCore_length_ge (b : Nat) :
    ∀ f n ds, ds.length ≤ (Nat.toDigitsCore b f n ds).length := by
  intro f
  induction f with
  | zero => intro n ds; simp [Nat.toDigitsCore]
  | succ f ih =>
    intro n ds
    simp only [Nat.toDigitsCore]
    by_cases h : n / b = 0
    · simp [h]
    · simp only [h, if_false]
      calc ds.length ≤ (Nat.digitChar (n % b) :: ds).length := by simp
        _ ≤ _ := ih (n / b) (Nat.digitChar (n % b) :: ds)

theorem toDigitsCore_length_succ_ge (b : Nat) (f n : Nat) (ds : List Char) (hf : f ≠ 0) :
    ds.length + 1 ≤ (Nat.toDigitsCore b f n ds).length := by
  cases f with
  | zero => exact absurd rfl hf
  | succ f =>
    simp only [Nat.toDigitsCore]
    by_cases h : n / b = 0
    · simp [h]
    · simp only [h, if_false]
      calc ds.length + 1 = (Nat.digitChar (n % b) :: ds).length := by simp
        _ ≤ _ := toDigitsCore_length_ge b f (n / b) (Nat.digitChar (n % b) :: ds)

theorem repr_length_ge_two (n : Nat) (h : 10 ≤ n) : 2 ≤ (Nat.repr n).length := by
  have hne : n ≠ 0 := by omega
  have hdiv : n / 10 ≠ 0 := by
    intro hd
    have := Nat.div_eq_zero_iff (by norm_num : 0 < 10) |>.mp hd
    omega
  show 2 ≤ (Nat.toDigits 10 n).asString.length
  have hlen : (Nat.toDigits 10 n).asString.length = (Nat.toDigits 10 n).length := rfl
  rw [hlen]
  unfold Nat.toDigits
  cases hn : n + 1 with
  | zero => omega
  | succ f =>
    simp only [Nat.toDigitsCore, hdiv, if_false]
    have hf : f ≠ 0 := by omega
    have := toDigitsCore_length_succ_ge 10 f (n / 10) [Nat.digitChar (n % 10)] hf
    simpa using this

theorem padStart2_repr (n : Nat) : padStart2 (Nat.repr n) = pad2 n := by
  by_cases h : n < 10
  · interval_cases n <;> decide
  · have h2 : 2 ≤ (Nat.repr n).length := repr_length_ge_two n (by omega)
    rw [padStart2, pad2, if_neg (by omega), if_neg (by omega)]

/-! ### Shared JS-truthiness helper

Supabase/JSON fields that may be absent or `null` are modelled as `Option`;
a JavaScript truthiness test on a string field (`if (text)`) is true exactly
when the field is present and non-empty. -/

/-- JS truthiness of an optional string field. -/
def truthyStr : Option String → Bool
  | some s => s ≠ ""
  | none => false

/-! ### Analysis service (`supabase/functions/analyze-recording/index.ts`)

The handler body is translated directly; the host primitives it uses are
modelled as follows: the upstream `fetch` result is an explicit
`UpstreamResponse` input, and `JSON.parse` is an explicit function parameter
`jsonParse` (its output shaped into the fixed `Analysis` schema).  The
code-fence stripping regex `/\x60\x60\x60json\n?|\n?\x60\x60\x60/g` is
implemented concretely below. -/

/-- One entry of the `highlights` array in the analysis JSON schema. -/
structure AnalysisHighlight where
  content : String
  timestamp : Int
deriving DecidableEq

/-- The fixed JSON schema the analysis service returns. -/
structure Analysis where
  summary : String
  keyPoints : List String
  sentiment : String
  tags : List String
  highlights : List AnalysisHighlight
  actionItems : List String
deriving DecidableEq

/-- The fallback object substituted when parsing the model output fails. -/
def parseFallback : Analysis :=
  { summary := "Analysis could not be completed due to parsing error"
    keyPoints := ["Raw transcription available"]
    sentiment := "neutral"
    tags := ["transcription"]
    highlights := []
    actionItems := [] }

/-- The stub fields attached to the HTTP 500 error body. -/
def failureStub : Analysis :=
  { summary := "Analysis failed"
    keyPoints := []
    sentiment := "neutral"
    tags := []
    highlights := []
    actionItems := [] }

/-- Outcome of the upstream generative-AI `fetch`: HTTP success flag and
status, the raw error body, and `candidates?.[0]?.content?.parts?.[0]?.text`
when present. -/
structure UpstreamResponse where
  ok : Bool
  statusCode : Nat
  errorText : String
  content : Option String
deriving DecidableEq

/-- Request body and process environment seen by one analyze invocation. -/
structure AnalyzeEnv where
  text : Option String
  apiKey : Option String
  upstream : UpstreamResponse
deriving DecidableEq

/-- HTTP response of the analyze handler: status, optional `error` field,
and the analysis-shaped payload fields. -/
structure AnalyzeResponse where
  status : Nat
  error : Option String
  analysis : Analysis
deriving DecidableEq

/-- Alternatives of the fence-stripping regex, in the order the regex engine
tries them at each position (first alternative with greedy optional
newline, then the bare closing fence). -/
def fenceJsonNl : List Char := "```json\n".data

/-- The fence alternative without the trailing newline. -/
def fenceJson : List Char := "```json".data

/-- The closing-fence alternative preceded by a newline. -/
def nlFence : List Char := "\n```".data

/-- The bare closing-fence alternative. -/
def fenceBare : List Char := "```".data

/-- Left-to-right global replacement of the fence alternatives by the empty
string, as `content.replace(regex, '')` performs it.  `fuel` bounds the
recursion; every step consumes at least one character, so `fuel = length`
suffices. -/
def stripFencesAux : Nat → List Char → List Char
  | 0, l => l
  | _ + 1, [] => []
  | fuel + 1, c :: rest =>
    if startsWithChars fenceJsonNl (c :: rest) then stripFencesAux fuel ((c :: rest).drop 8)
    else if startsWithChars fenceJson (c :: rest) then stripFencesAux fuel ((c :: rest).drop 7)
    else if startsWithChars nlFence (c :: rest) then stripFencesAux fuel ((c :: rest).drop 4)
    else if startsWithChars fenceBare (c :: rest) then stripFencesAux fuel ((c :: rest).drop 3)
    else c :: stripFencesAux fuel rest

/-- Translation of the clean-up step applied to the model output before
parsing: strip code fences, then trim. -/
def cleanContent (s : String) : String :=
  trimStr (String.mk (stripFencesAux s.data.length s.data))

/-- Translation of the analyze-recording request handler.  `jsonParse`
stands for the host `JSON.parse` (returning `none` on a parse error or on a
value not matching the schema). -/
def analyzeRecording (env : AnalyzeEnv) (jsonParse : String → Option Analysis) :
    AnalyzeResponse :=
  if truthyStr env.text = false then
    { status := 500, error := some "No transcription text provided", analysis := failureStub }
  else if truthyStr env.apiKey = false then
    { status := 500, error := some "Gemini API key not configured", analysis := failureStub }
  else if env.upstream.ok = false then
    { status := 500
      error := some ("Gemini API error: " ++ Nat.repr env.upstream.statusCode ++ " - " ++
        env.upstream.errorText)
      analysis := failureStub }
  else
    let analysis :=
      match env.upstream.content with
      | some c =>
        -- an absent or empty content string raises inside the same try and
        -- also degrades to the fallback
        if c = "" then parseFallback
        else (jsonParse (cleanContent c)).getD parseFallback
      | none => parseFallback
    { status := 200, error := none, analysis := analysis }

/-! ### Transcription service (`supabase/functions/transcribe-audio/index.ts`) -/

/-- Request body and process environment seen by one transcribe invocation. -/
structure TranscribeEnv where
  audio : Option String
  apiKey : Option String
  upstream : UpstreamResponse
deriving DecidableEq

/-- HTTP response of the transcribe handler. -/
inductive TranscribeResult
  /-- 200 with `{ text, language }`. -/
  | success (text : String) (language : String)
  /-- 500 with an `error` field. -/
  | failure (status : Nat) (error : String)
deriving DecidableEq

/-- Translation of the transcribe-audio request handler.  The second
component records whether the upstream generative-AI endpoint was actually
contacted by this invocation. -/
def transcribeAudio (env : TranscribeEnv) : TranscribeResult × Bool :=
  if truthyStr env.audio = false then
    (.failure 500 "No audio data provided", false)
  else
    let audio := env.audio.getD ""
    if truthyStr env.apiKey = false then
      (.failure 500 "Gemini API key not configured", false)
    else if audio.length > 10000000 then
      (.failure 500 "Audio file too large. Please use shorter recordings.", false)
    else if env.upstream.ok = false then
      (.failure 500 ("Gemini API error: " ++ Nat.repr env.upstream.statusCode), true)
    else
      match env.upstream.content with
      | some t =>
        if t = "" then (.failure 500 "No transcription text returned from Gemini", true)
        else (.success (trimStr t) "auto-detected", true)
      | none => (.failure 500 "No transcription text returned from Gemini", true)

/-! ### Pipeline orchestrator (`RecordingInterface.handleSaveAndTranscribe`)

The handler runs in the browser against external collaborators (storage,
the two serverless functions, the `recordings` table, the HTML audio
element).  One invocation is modelled as a pure function of a
`PipelineEnv` describing every external outcome, together with the current
contents of the caller's `recordings` table.  Highlight persistence (a
second insert into the separate `highlights` table) is not modelled; no
claim concerns it. -/

/-- The `transcribe-audio` invoke result as the orchestrator sees it:
`data` (with its optional `text` field) and `error`. -/
structure TranscriptionData where
  text : Option String
deriving DecidableEq

/-- The `analyze-recording` invoke result body as the orchestrator sees
it: the fields it reads off `analysisData`. -/
structure AnalysisData where
  summary : Option String
  sentiment : Option String
  tags : Option (List String)
  highlights : Option (List AnalysisHighlight)
deriving DecidableEq

/-- One row of the `recordings` table as inserted by the orchestrator. -/
structure RecordingRow where
  user_id : String
  title : String
  audio_url : String
  transcription : String
  summary : Option String
  sentiment : Option String
  tags : Option (List String)
  duration_seconds : Nat
  duration_formatted : String
deriving DecidableEq

/-- External outcomes of one `handleSaveAndTranscribe` invocation.
`metadataDuration` is `Math.floor(audio.duration)` if the local audio
element ever fires `loadedmetadata`, and `none` if it never does. -/
structure PipelineEnv where
  hasAudioBlob : Bool
  hasUser : Bool
  userId : String
  title : String
  uploadError : Option String
  publicUrl : String
  base64Audio : String
  transcriptionData : Option TranscriptionData
  transcriptionError : Option String
  analysisData : Option AnalysisData
  analysisError : Option String
  metadataDuration : Option Nat
  dbError : Option String
deriving DecidableEq

/-- External calls the orchestrator can issue, in order of issue. -/
inductive ServiceCall
  | storageUpload
  | transcribeInvoke
  | analyzeInvoke
  | insertRecording
deriving DecidableEq

/-- Terminal state of one invocation.  `stuckAwaitingMetadata` models the
un-timeouted `await` on `loadedmetadata` never resolving: the invocation
neither completes nor surfaces an error. -/
inductive PipelineOutcome
  | earlyReturn
  | saveErrorToast (msg : String)
  | processingErrorToast (msg : String)
  | saved
  | stuckAwaitingMetadata
deriving DecidableEq

/-- Result of one invocation: terminal state, resulting `recordings` table
contents, and the trace of external calls issued. -/
structure PipelineResult where
  outcome : PipelineOutcome
  recordings : List RecordingRow
  calls : List ServiceCall
deriving DecidableEq

/-- The transcript the orchestrator accepts: `transcriptionData?.text`
under JS truthiness. -/
def pipelineTranscript (env : PipelineEnv) : Option String :=
  match env.transcriptionData with
  | some td =>
    match td.text with
    | some s => if s = "" then none else some s
    | none => none
  | none => none

/-- JS truthiness of `analysisData?.summary`. -/
def analysisSummaryTruthy (env : PipelineEnv) : Bool :=
  match env.analysisData with
  | some ad => truthyStr ad.summary
  | none => false

/-- The tail of the handler from the duration measurement on (the code
after the analysis checks): await `loadedmetadata`, compute the formatted
duration, read the analysis fields off `analysisData` and insert the row.
Factored out because it is reached both when `analysisData?.summary` is
truthy and when neither a summary nor an analysis error is present. -/
def pipelineProceed (env : PipelineEnv) (recordings : List RecordingRow)
    (transcript : String) : PipelineResult :=
  let calls := [ServiceCall.storageUpload, .transcribeInvoke, .analyzeInvoke]
  match env.metadataDuration with
  | none => ⟨.stuckAwaitingMetadata, recordings, calls⟩
  | some durationSeconds =>
    let formattedDuration := padStart2 (Nat.repr (durationSeconds / 60)) ++ ":" ++
      padStart2 (Nat.repr (durationSeconds % 60))
    match env.analysisData with
    | none =>
      -- reading `analysisData.summary` off a null value raises a
      -- TypeError caught by the processing-error handler
      ⟨.processingErrorToast "Cannot read properties of null (reading 'summary')",
        recordings, calls⟩
    | some ad =>
      let row : RecordingRow :=
        { user_id := env.userId
          title := if env.title = "" then "Untitled Recording" else env.title
          audio_url := env.publicUrl
          transcription := transcript
          summary := ad.summary
          sentiment := ad.sentiment
          tags := ad.tags
          duration_seconds := durationSeconds
          duration_formatted := formattedDuration }
      match env.dbError with
      | some m => ⟨.processingErrorToast m, recordings, calls ++ [.insertRecording]⟩
      | none => ⟨.saved, recordings ++ [row], calls ++ [.insertRecording]⟩

/-- Translation of `handleSaveAndTranscribe`, branch for branch.  The
`base64Audio` string is only ever logged by the source (its length appears
in a `console.log`); the orchestrator never branches on it. -/
def handleSaveAndTranscribe (env : PipelineEnv) (recordings : List RecordingRow) :
    PipelineResult :=
  if env.hasAudioBlob = false || env.hasUser = false then
    ⟨.earlyReturn, recordings, []⟩
  else
    match env.uploadError with
    | some _ =>
      ⟨.saveErrorToast "Failed to save recording. Please try again.", recordings,
        [.storageUpload]⟩
    | none =>
      match pipelineTranscript env with
      | none =>
        match env.transcriptionError with
        | some m =>
          ⟨.processingErrorToast ("Transcription failed: " ++
              (if m = "" then "Unknown transcription error" else m)),
            recordings, [.storageUpload, .transcribeInvoke]⟩
        | none =>
          ⟨.processingErrorToast "No transcription text received from the API",
            recordings, [.storageUpload, .transcribeInvoke]⟩
      | some transcript =>
        if analysisSummaryTruthy env then pipelineProceed env recordings transcript
        else
          match env.analysisError with
          | some m =>
            ⟨.processingErrorToast ("Analysis failed: " ++
                (if m = "" then "Unknown analysis error" else m)),
              recordings, [.storageUpload, .transcribeInvoke, .analyzeInvoke]⟩
          | none =>
            -- `console.warn('Analysis completed but no summary received.
            -- Using partial data.')` and the pipeline continues
            pipelineProceed env recordings transcript

/-! ### Knowledge graph (`src/components/knowledge-graph.tsx`)

JavaScript plain objects keyed by tag/sentiment strings (`tagCounts`,
`tagSentiments`, `tagConnections`) preserve string-key insertion order, as
does a `Set`; they are modelled by association lists that insert new keys
at the end and update existing keys in place. -/

/-- First-match association-list lookup (`obj[key]`, `none` = `undefined`). -/
def lookupA {α : Type} : List (String × α) → String → Option α
  | [], _ => none
  | (k, v) :: rest, key => if k = key then some v else lookupA rest key

/-- Numeric lookup where an absent key behaves like `0` (the source guards
every such read with a truthiness check or only reads existing keys). -/
def lookupCount (m : List (String × Nat)) (k : String) : Nat := (lookupA m k).getD 0

/-- `counts[k] = (counts[k] || 0) + 1` on an insertion-ordered object. -/
def bumpCount : List (String × Nat) → String → List (String × Nat)
  | [], k => [(k, 1)]
  | (k', v) :: rest, k =>
    if k' = k then (k', v + 1) :: rest else (k', v) :: bumpCount rest k

/-- `m[k] = m[k] || []; m[k].push(s)` on an insertion-ordered object. -/
def appendVal : List (String × List String) → String → String → List (String × List String)
  | [], k, s => [(k, [s])]
  | (k', vs) :: rest, k, s =>
    if k' = k then (k', vs ++ [s]) :: rest else (k', vs) :: appendVal rest k s

/-- `if (!m[k]) m[k] = new Set()`. -/
def ensureKey : List (String × List String) → String → List (String × List String)
  | [], k => [(k, [])]
  | (k', vs) :: rest, k => if k' = k then (k', vs) :: rest else (k', vs) :: ensureKey rest k

/-- `m[k].add(t)` on a `Set` modelled as a duplicate-free insertion-ordered
list. -/
def addConn : List (String × List String) → String → String → List (String × List String)
  | [], k, t => [(k, [t])]
  | (k', vs) :: rest, k, t =>
    if k' = k then (k', if t ∈ vs then vs else vs ++ [t]) :: rest
    else (k', vs) :: addConn rest k t

/-- One row of the graph query: `tags, sentiment` of a recording of the
calling user whose `tags` column is non-null (the query also selects
`title`, which the graph computation never reads). -/
structure GRecording where
  tags : List String
  sentiment : Option String
deriving DecidableEq

/-- `recording.sentiment || 'neutral'`. -/
def gRecSentiment (r : GRecording) : String :=
  match r.sentiment with
  | some s => if s = "" then "neutral" else s
  | none => "neutral"

/-- The three maps accumulated over the recordings. -/
structure GraphAcc where
  tagConnections : List (String × List String)
  tagCounts : List (String × Nat)
  tagSentiments : List (String × List String)
deriving DecidableEq

/-- Body of the inner `tags.forEach(tag => ...)`. -/
def processTag (tags : List String) (sentiment : String) (acc : GraphAcc) (tag : String) :
    GraphAcc :=
  { tagCounts := bumpCount acc.tagCounts tag
    tagSentiments := appendVal acc.tagSentiments tag sentiment
    tagConnections :=
      tags.foldl (fun cs other => if tag = other then cs else addConn cs tag other)
        (ensureKey acc.tagConnections tag) }

/-- Body of the outer `recordings.forEach(recording => ...)`. -/
def processRecording (acc : GraphAcc) (r : GRecording) : GraphAcc :=
  r.tags.foldl (processTag r.tags (gRecSentiment r)) acc

/-- The three maps for a full recording list. -/
def buildAcc (recs : List GRecording) : GraphAcc :=
  recs.foldl processRecording ⟨[], [], []⟩

/-- The `reduce((a, b) => counts[a[0]] > counts[b[0]] ? a : b)` step over
the entries of the counts object (for entries of the same object,
`counts[a[0]]` is `a[1]`). -/
def champion : (String × Nat) → List (String × Nat) → String × Nat
  | a, [] => a
  | a, b :: rest => champion (if a.2 > b.2 then a else b) rest

/-- Translation of `getDominantSentiment`.  `none` models the `TypeError`
that `[].reduce` would raise on an empty sentiments list; the graph view
only ever passes non-empty lists. -/
def getDominantSentiment (sentiments : List String) : Option String :=
  match sentiments.foldl bumpCount [] with
  | [] => none
  | e :: rest => some (champion e rest).1

/-- A displayed graph node: identity, label, occurrence count and dominant
sentiment (layout position and colour styling are presentation only and
not modelled). -/
structure GNode where
  id : String
  label : String
  count : Nat
  sentiment : Option String
deriving DecidableEq

/-- A displayed graph edge; `strength` is the `connectionStrength` the
source computes (the minimum of the two endpoint counts). -/
structure GEdge where
  id : String
  source : String
  target : String
  strength : Nat
deriving DecidableEq

/-- Node construction from the counts and sentiments maps. -/
def nodesOf (counts : List (String × Nat)) (sentiments : List (String × List String)) :
    List GNode :=
  counts.map fun p =>
    { id := p.1
      label := p.1 ++ " (" ++ Nat.repr p.2 ++ ")"
      count := p.2
      sentiment := getDominantSentiment ((lookupA sentiments p.1).getD []) }

/-- Edge construction: for each connections entry and each target in its
set, an edge is emitted when the target has a truthy count and
`source < target` in JS string order (the deduplication condition). -/
def edgesOf (counts : List (String × Nat)) (conns : List (String × List String)) :
    List GEdge :=
  conns.flatMap fun p =>
    p.2.filterMap fun target =>
      if lookupCount counts target ≠ 0 ∧ strLtB p.1 target = true then
        some { id := p.1 ++ "-" ++ target
               source := p.1
               target := target
               strength := min (lookupCount counts p.1) (lookupCount counts target) }
      else none

/-- The hard-coded placeholder nodes (`initialNodes` in the source; only
identity and label are modelled, position and styling are presentation). -/
def initialNodes : List GNode :=
  [ { id := "meetings", label := "Meetings", count := 0, sentiment := none }
  , { id := "project-planning", label := "Project Planning", count := 0, sentiment := none }
  , { id := "brainstorming", label := "Brainstorming", count := 0, sentiment := none }
  , { id := "ideas", label := "Ideas", count := 0, sentiment := none }
  , { id := "decisions", label := "Decisions", count := 0, sentiment := none } ]

/-- The hard-coded placeholder edges (`initialEdges`); these carry no
`connectionStrength`, so `strength` records their literal `strokeWidth`. -/
def initialEdges : List GEdge :=
  [ { id := "meetings-planning", source := "meetings", target := "project-planning",
      strength := 2 }
  , { id := "meetings-brainstorming", source := "meetings", target := "brainstorming",
      strength := 2 }
  , { id := "planning-decisions", source := "project-planning", target := "decisions",
      strength := 1 }
  , { id := "brainstorming-ideas", source := "brainstorming", target := "ideas",
      strength := 1 } ]

/-- Translation of `generateKnowledgeGraph`: on an empty (or null) result
set the hard-coded placeholder graph is displayed, otherwise the graph is
recomputed in full from the recordings' tags and sentiments. -/
def generateKnowledgeGraph (recs : List GRecording) : List GNode × List GEdge :=
  if recs.isEmpty then (initialNodes, initialEdges)
  else
    let acc := buildAcc recs
    (nodesOf acc.tagCounts acc.tagSentiments, edgesOf acc.tagCounts acc.tagConnections)

/-- The claim's notion of global occurrence count of a tag, written
directly: total number of occurrences across all recordings' tag arrays. -/
def occurrenceCount (recs : List GRecording) (tag : String) : Nat :=
  (recs.map fun r => r.tags.count tag).sum

/-! ### Search (`src/components/search-interface.tsx`) -/

/-- One `recordings` row as fetched by the search view (`select('*')`;
only the fields the view reads are modelled). -/
structure SRecording where
  id : String
  title : Option String
  transcription : Option String
  summary : Option String
  tags : Option (List String)
  audio_url : String
  created_at : String
deriving DecidableEq

/-- The lightweight result record built for each match. -/
structure SearchResult where
  id : String
  title : String
  snippet : String
  timestamp : String
  tags : List String
  audio_url : String
  transcription : Option String
deriving DecidableEq

/-- `field?.toLowerCase().includes(searchText)` for an optional field. -/
def optContains (field : Option String) (searchText : String) : Bool :=
  match field with
  | some s => containsStr (lowerStr s) searchText
  | none => false

/-- The filter predicate of `handleSearch`. -/
def matchesQuery (query : String) (r : SRecording) : Bool :=
  let searchText := lowerStr query
  optContains r.title searchText || optContains r.transcription searchText ||
    optContains r.summary searchText ||
    (match r.tags with
     | some ts => ts.any fun tag => containsStr (lowerStr tag) searchText
     | none => false)

/-- `s.substring(0, n)`. -/
def firstChars (n : Nat) (s : String) : String := String.mk (s.data.take n)

/-- The transcription-based snippet:
`recording.transcription?.substring(0, 150) + '...'`.  When the
transcription is null, JS string-coerces the undefined optional-chain
result, producing a truthy `"undefined..."`, so the
`'No content available'` default is unreachable. -/
def snippetFromTranscript (r : SRecording) : String :=
  match r.transcription with
  | some t => firstChars 150 t ++ "..."
  | none => "undefined" ++ "..."

/-- `recording.summary || (transcription snippet) || 'No content
available'`. -/
def snippetOf (r : SRecording) : String :=
  match r.summary with
  | some s => if s = "" then snippetFromTranscript r else s
  | none => snippetFromTranscript r

/-- The per-match mapping to a `SearchResult`.  `timestamp` keeps the raw
`created_at` value; `new Date(...).toLocaleDateString()` is host locale
formatting with no pure counterpart. -/
def toSearchResult (r : SRecording) : SearchResult :=
  { id := r.id
    title :=
      match r.title with
      | some t => if t = "" then "Untitled Recording" else t
      | none => "Untitled Recording"
    snippet := snippetOf r
    timestamp := r.created_at
    tags := r.tags.getD []
    audio_url := r.audio_url
    transcription := r.transcription }

/-- Translation of `handleSearch`: a whitespace-only query clears the
results; otherwise the fetched recordings are filtered and mapped. -/
def handleSearch (query : String) (allRecordings : List SRecording) : List SearchResult :=
  if trimStr query = "" then []
  else (allRecordings.filter fun r => matchesQuery query r).map toSearchResult

/-- Modelled from the spec: the spec's own matching criterion for claim C9,
written from its words — "the lowercased query is a substring of the
title, the transcription, the summary, or at least one tag
(case-insensitive)"; null fields match nothing. -/
def specMatches (query : String) (r : SRecording) : Bool :=
  let q := lowerStr query
  (match r.title with | some t => containsStr (lowerStr t) q | none => false) ||
    (match r.transcription with | some t => containsStr (lowerStr t) q | none => false) ||
    (match r.summary with | some s => containsStr (lowerStr s) q | none => false) ||
    (match r.tags with
     | some ts => ts.any fun tag => containsStr (lowerStr tag) q
     | none => false)

/-! ## Claims -/

/-- C1: in every `saveAndProcess` (`handleSaveAndTranscribe`) invocation in
which the transcription call fails — the invoke returns an error, or no
(truthy) `text` field is present in its response — no row is inserted into
the `recordings` table.  The hypothesis `hclient` is the supabase
functions-client contract that an invoke returning an error carries no
response data. -/
theorem claim_C1 (env : PipelineEnv) (db : List RecordingRow)
    (hfail : env.transcriptionError.isSome = true ∨ pipelineTranscript env = none)
    (hclient : env.transcriptionError.isSome = true → env.transcriptionData = none) :
    (handleSaveAndTranscribe env db).recordings = db := by
  have ht : pipelineTranscript env = none := by
    rcases hfail with h | h
    · rw [pipelineTranscript, hclient h]
    · exact h
  rw [handleSaveAndTranscribe]
  split
  · rfl
  · split
    · rfl
    · rw [ht]
      split
      · split <;> rfl
      · rename_i heq
        exact absurd heq (by simp)

/-- A transcription-failure environment: the invoke returned an error and
no data, every later step would have succeeded. -/
def envC1 : PipelineEnv :=
  { hasAudioBlob := true, hasUser := true, userId := "u1", title := "Standup"
    uploadError := none, publicUrl := "https://store/u1/1.webm", base64Audio := "QUJD"
    transcriptionData := none, transcriptionError := some "FunctionsHttpError"
    analysisData := some
      { summary := some "s", sentiment := some "neutral", tags := some ["a"],
        highlights := none }
    analysisError := none, metadataDuration := some 65, dbError := none }

theorem claim_C1_witness :
    (handleSaveAndTranscribe envC1 []).recordings = [] :=
  claim_C1 envC1 [] (Or.inl rfl) (fun _ => rfl)

/-- C2: whenever the upstream generation call succeeds but the returned
text does not parse as JSON after the code-fence clean-up, the analyze
service responds HTTP 200 (no `error` field) with the fixed fallback
object: the parsing-error summary, neutral sentiment, the single tag
`transcription`, and empty highlights and action items. -/
theorem claim_C2 (env : AnalyzeEnv) (jsonParse : String → Option Analysis) (c : String)
    (htext : truthyStr env.text = true) (hkey : truthyStr env.apiKey = true)
    (hok : env.upstream.ok = true) (hc : env.upstream.content = some c)
    (hparse : jsonParse (cleanContent c) = none) :
    analyzeRecording env jsonParse =
      { status := 200
        error := none
        analysis :=
          { summary := "Analysis could not be completed due to parsing error"
            keyPoints := ["Raw transcription available"]
            sentiment := "neutral"
            tags := ["transcription"]
            highlights := []
            actionItems := [] } } := by
  rw [analyzeRecording, if_neg (by rw [htext]; simp), if_neg (by rw [hkey]; simp),
    if_neg (by rw [hok]; simp), hc]
  by_cases hce : c = ""
  · simp only [hce, if_pos rfl]
    rfl
  · simp only [if_neg hce, hparse]
    rfl

/-- An analyze environment whose upstream call succeeds with unparseable
output. -/
def analyzeEnvC2 : AnalyzeEnv :=
  { text := some "hello world", apiKey := some "k"
    upstream := { ok := true, statusCode := 200, errorText := "", content := some "NOT JSON" } }

theorem claim_C2_witness :
    analyzeRecording analyzeEnvC2 (fun _ => none) =
      { status := 200
        error := none
        analysis :=
          { summary := "Analysis could not be completed due to parsing error"
            keyPoints := ["Raw transcription available"]
            sentiment := "neutral"
            tags := ["transcription"]
            highlights := []
            actionItems := [] } } :=
  claim_C2 analyzeEnvC2 (fun _ => none) "NOT JSON" rfl rfl rfl rfl rfl

/-- C10: while recording (started at `startTime ≠ 0` milliseconds), the
duration display recomputed by `updateDuration` at wall-clock `now` equals
the elapsed time rounded down to whole seconds, formatted zero-padded
`MM:SS`; in particular 65 elapsed seconds display as `01:05`. -/
theorem claim_C10 (startTime now : Nat) (hstart : startTime ≠ 0) (_hle : startTime ≤ now) :
    updateDuration startTime now = some (formatMMSS ((now - startTime) / 1000)) ∧
    updateDuration startTime (startTime + 65000) = some "01:05" := by
  constructor
  · rw [updateDuration, if_neg hstart, formatMMSS]
    simp only [padStart2_repr]
  · have h65 : startTime + 65000 - startTime = 65000 := by omega
    rw [updateDuration, if_neg hstart, h65]
    norm_num
    decide

theorem claim_C10_witness :
    updateDuration 1000 66000 = some (formatMMSS ((66000 - 1000) / 1000)) ∧
    updateDuration 1000 (1000 + 65000) = some "01:05" :=
  claim_C10 1000 66000 (by decide) (by decide)

/-- Helper for C4: every branch of the post-transcription tail keeps the
transcribe invocation in the call trace. -/
theorem transcribeInvoke_mem_proceed (env : PipelineEnv) (db : List RecordingRow)
    (t : String) : ServiceCall.transcribeInvoke ∈ (pipelineProceed env db t).calls := by
  simp only [pipelineProceed]
  split
  · exact List.mem_cons_of_mem _ (List.mem_cons_self _ _)
  · split
    · exact List.mem_cons_of_mem _ (List.mem_cons_self _ _)
    · split <;> exact List.mem_cons_of_mem _ (List.mem_cons_self _ _)

/-- Helper for C4: once past a successful upload, the handler with an
unusable transcript still has the transcribe invocation in its trace. -/
theorem handle_transcript_fail (env : PipelineEnv) (db : List RecordingRow)
    (hblob : env.hasAudioBlob = true) (huser : env.hasUser = true)
    (hupload : env.uploadError = none) (ht : pipelineTranscript env = none) :
    handleSaveAndTranscribe env db =
      (match env.transcriptionError with
       | some m =>
         ⟨.processingErrorToast ("Transcription failed: " ++
             (if m = "" then "Unknown transcription error" else m)),
           db, [.storageUpload, .transcribeInvoke]⟩
       | none =>
         ⟨.processingErrorToast "No transcription text received from the API",
           db, [.storageUpload, .transcribeInvoke]⟩) := by
  rw [handleSaveAndTranscribe, if_neg (by simp [hblob, huser]), hupload, ht]

/-- Helper for C3/C5: once a transcript is accepted, the handler is the
analysis gate followed by the shared tail. -/
theorem handle_after_transcript (env : PipelineEnv) (db : List RecordingRow) (t : String)
    (hblob : env.hasAudioBlob = true) (huser : env.hasUser = true)
    (hupload : env.uploadError = none) (ht : pipelineTranscript env = some t) :
    handleSaveAndTranscribe env db =
      (if analysisSummaryTruthy env = true then pipelineProceed env db t
       else
        match env.analysisError with
        | some m =>
          ⟨.processingErrorToast ("Analysis failed: " ++
              (if m = "" then "Unknown analysis error" else m)),
            db, [.storageUpload, .transcribeInvoke, .analyzeInvoke]⟩
        | none => pipelineProceed env db t) := by
  rw [handleSaveAndTranscribe, if_neg (by simp [hblob, huser]), hupload, ht]

/-- Helper for C5: under the analysis gate (`summary` truthy, or no
analysis error), the handler reaches the shared tail. -/
theorem handle_reaches_proceed (env : PipelineEnv) (db : List RecordingRow) (t : String)
    (hblob : env.hasAudioBlob = true) (huser : env.hasUser = true)
    (hupload : env.uploadError = none) (ht : pipelineTranscript env = some t)
    (hgate : analysisSummaryTruthy env = true ∨ env.analysisError = none) :
    handleSaveAndTranscribe env db = pipelineProceed env db t := by
  rw [handle_after_transcript env db t hblob huser hupload ht]
  by_cases hs : analysisSummaryTruthy env = true
  · rw [if_pos hs]
  · rw [if_neg hs]
    rcases hgate with h | h
    · exact absurd h hs
    · rw [h]

/-- C3's failing configuration: the analysis response is an object with no
`summary` field and no accompanying invoke error; every other step
succeeds. -/
def envC3 : PipelineEnv :=
  { hasAudioBlob := true, hasUser := true, userId := "u1", title := "Planning"
    uploadError := none, publicUrl := "https://store/u1/2.webm", base64Audio := "QUJD"
    transcriptionData := some { text := some "hello world" }, transcriptionError := none
    analysisData := some
      { summary := none, sentiment := some "neutral", tags := some ["planning"],
        highlights := none }
    analysisError := none, metadataDuration := some 5, dbError := none }

/-- C3 counterexample: with neither a `summary` field nor an `error` in the
analysis response, the pipeline does not abort — it completes the save and
inserts a Recording row, contradicting the claimed `AnalysisFailed` abort. -/
theorem claim_C3_counterexample :
    envC3.analysisData.map AnalysisData.summary = some none ∧
    envC3.analysisError = none ∧
    (handleSaveAndTranscribe envC3 []).outcome = .saved ∧
    (handleSaveAndTranscribe envC3 []).recordings.length = 1 := by
  refine ⟨rfl, rfl, ?_, ?_⟩ <;> decide

/-- C3 as amended: if the analysis response has a truthy `summary`, the
pipeline proceeds even when an `error` accompanies it; if no summary but an
error is present, it aborts with the analysis-failure toast and writes no
row; if neither is present, it logs a warning and still proceeds with
partial data (persisting a row with a null summary when the later steps
succeed), rather than aborting. -/
theorem claim_C3_amended (env : PipelineEnv) (db : List RecordingRow) (t : String)
    (hblob : env.hasAudioBlob = true) (huser : env.hasUser = true)
    (hupload : env.uploadError = none) (ht : pipelineTranscript env = some t) :
    (analysisSummaryTruthy env = true →
      handleSaveAndTranscribe env db = pipelineProceed env db t) ∧
    (analysisSummaryTruthy env = false →
      ∀ m, env.analysisError = some m →
        (handleSaveAndTranscribe env db).outcome =
          .processingErrorToast ("Analysis failed: " ++
            (if m = "" then "Unknown analysis error" else m)) ∧
        (handleSaveAndTranscribe env db).recordings = db) ∧
    (analysisSummaryTruthy env = false → env.analysisError = none →
      handleSaveAndTranscribe env db = pipelineProceed env db t) := by
  have hred := handle_after_transcript env db t hblob huser hupload ht
  refine ⟨?_, ?_, ?_⟩
  · intro hs
    rw [hred, if_pos hs]
  · intro hs m hm
    rw [hred, if_neg (by rw [hs]; simp), hm]
    exact ⟨rfl, rfl⟩
  · intro hs hm
    rw [hred, if_neg (by rw [hs]; simp), hm]

theorem claim_C3_amended_witness :
    handleSaveAndTranscribe envC3 [] = pipelineProceed envC3 [] "hello world" :=
  (claim_C3_amended envC3 [] "hello world" rfl rfl rfl rfl).2.2 rfl rfl

/-- A base64 payload one character over the transcription service's fixed
ceiling. -/
def oversizedAudio : String := String.mk (List.replicate 10000001 'a')

theorem oversizedAudio_length : oversizedAudio.length = 10000001 := by
  rw [oversizedAudio]
  show (List.replicate 10000001 'a').length = 10000001
  exact List.length_replicate 10000001 'a'

theorem oversizedAudio_ne_empty : oversizedAudio ≠ "" := by
  intro h
  have hl := oversizedAudio_length
  rw [h] at hl
  simp at hl

/-- An orchestrator environment holding the oversized payload, with every
external step succeeding. -/
def envC4 : PipelineEnv :=
  { hasAudioBlob := true, hasUser := true, userId := "u1", title := "Long recording"
    uploadError := none, publicUrl := "https://store/u1/3.webm"
    base64Audio := oversizedAudio
    transcriptionData := some { text := some "long transcript" }, transcriptionError := none
    analysisData := some
      { summary := some "s", sentiment := some "positive", tags := some ["long"],
        highlights := none }
    analysisError := none, metadataDuration := some 3600, dbError := none }

/-- C4 counterexample: for an encoded payload exceeding the ceiling, the
orchestrator performs no local check and still issues the external
transcription call (the claim says it rejects locally, without making the
call). -/
theorem claim_C4_counterexample :
    envC4.base64Audio.length > 10000000 ∧
    ServiceCall.transcribeInvoke ∈ (handleSaveAndTranscribe envC4 []).calls ∧
    (handleSaveAndTranscribe envC4 []).outcome = .saved := by
  refine ⟨?_, ?_, ?_⟩
  · show oversizedAudio.length > 10000000
    rw [oversizedAudio_length]
    norm_num
  · decide
  · decide

/-- C4 as amended: the ~10,000,000-character ceiling is enforced inside the
Transcription Service, not by the orchestrator — the orchestrator invokes
the service regardless of the encoded size, and it is the service that
rejects an over-length payload with a descriptive error, before contacting
the upstream endpoint. -/
theorem claim_C4_amended :
    (∀ (env : PipelineEnv) (db : List RecordingRow),
      env.hasAudioBlob = true → env.hasUser = true → env.uploadError = none →
      ServiceCall.transcribeInvoke ∈ (handleSaveAndTranscribe env db).calls) ∧
    (∀ tenv : TranscribeEnv, truthyStr tenv.audio = true → truthyStr tenv.apiKey = true →
      (tenv.audio.getD "").length > 10000000 →
      transcribeAudio tenv =
        (.failure 500 "Audio file too large. Please use shorter recordings.", false)) := by
  constructor
  · intro env db hblob huser hupload
    cases ht : pipelineTranscript env with
    | none =>
      rw [handle_transcript_fail env db hblob huser hupload ht]
      cases env.transcriptionError <;>
        exact List.mem_cons_of_mem _ (List.mem_cons_self _ _)
    | some t =>
      rw [handle_after_transcript env db t hblob huser hupload ht]
      by_cases hs : analysisSummaryTruthy env = true
      · rw [if_pos hs]
        exact transcribeInvoke_mem_proceed env db t
      · rw [if_neg hs]
        cases env.analysisError with
        | none => exact transcribeInvoke_mem_proceed env db t
        | some m => exact List.mem_cons_of_mem _ (List.mem_cons_self _ _)
  · intro tenv haudio hkey hlen
    rw [transcribeAudio, if_neg (by rw [haudio]; simp)]
    simp only
    rw [if_neg (by rw [hkey]; simp), if_pos hlen]

/-- A transcribe request carrying the oversized payload. -/
def transcribeEnvC4 : TranscribeEnv :=
  { audio := some oversizedAudio, apiKey := some "k"
    upstream := { ok := true, statusCode := 200, errorText := "", content := some "text" } }

theorem claim_C4_amended_witness :
    ServiceCall.transcribeInvoke ∈ (handleSaveAndTranscribe envC4 []).calls ∧
    transcribeAudio transcribeEnvC4 =
      (.failure 500 "Audio file too large. Please use shorter recordings.", false) :=
  ⟨claim_C4_amended.1 envC4 [] rfl rfl rfl,
   claim_C4_amended.2 transcribeEnvC4 (decide_eq_true oversizedAudio_ne_empty) rfl
     (by show oversizedAudio.length > 10000000
         rw [oversizedAudio_length]
         norm_num)⟩

/-- C5's failing configuration: the audio element never fires
`loadedmetadata`; every other step would have succeeded. -/
def envC5 : PipelineEnv :=
  { hasAudioBlob := true, hasUser := true, userId := "u1", title := "Meta"
    uploadError := none, publicUrl := "https://store/u1/4.webm", base64Audio := "QUJD"
    transcriptionData := some { text := some "hi there" }, transcriptionError := none
    analysisData := some
      { summary := some "sum", sentiment := some "neutral", tags := some ["x"],
        highlights := none }
    analysisError := none, metadataDuration := none, dbError := none }

/-- C5 counterexample: when the audio metadata never loads, the save does
not complete — the un-timeouted await leaves the invocation stuck and no
Recording row is written, contradicting the claim that a duration failure
never blocks persisting the row. -/
theorem claim_C5_counterexample :
    envC5.metadataDuration = none ∧
    (handleSaveAndTranscribe envC5 []).outcome = .stuckAwaitingMetadata ∧
    (handleSaveAndTranscribe envC5 []).recordings = [] := by
  refine ⟨rfl, ?_, ?_⟩ <;> decide

/-- C5 as amended: whenever the metadata does load, the save completes
regardless of the reported duration value; but when the metadata never
loads, the pipeline waits forever on the await — no row is persisted and
no error surfaces — so the duration step is not guarded as best-effort. -/
theorem claim_C5_amended (env : PipelineEnv) (db : List RecordingRow) (t : String)
    (hblob : env.hasAudioBlob = true) (huser : env.hasUser = true)
    (hupload : env.uploadError = none) (ht : pipelineTranscript env = some t)
    (hgate : analysisSummaryTruthy env = true ∨ env.analysisError = none) :
    (∀ d ad, env.metadataDuration = some d → env.analysisData = some ad →
      env.dbError = none →
      (handleSaveAndTranscribe env db).outcome = .saved ∧
      (handleSaveAndTranscribe env db).recordings.length = db.length + 1) ∧
    (env.metadataDuration = none →
      (handleSaveAndTranscribe env db).outcome = .stuckAwaitingMetadata ∧
      (handleSaveAndTranscribe env db).recordings = db) := by
  have hp := handle_reaches_proceed env db t hblob huser hupload ht hgate
  constructor
  · intro d ad hd had hdb
    rw [hp]
    refine ⟨?_, ?_⟩
    · simp only [pipelineProceed, hd, had, hdb]
    · simp [pipelineProceed, hd, had, hdb]
  · intro hd
    rw [hp]
    refine ⟨?_, ?_⟩
    · simp only [pipelineProceed, hd]
    · simp only [pipelineProceed, hd]

/-- A successful configuration differing from `envC5` only in that the
metadata loads with a 65-second duration. -/
def envC5loaded : PipelineEnv :=
  { envC5 with metadataDuration := some 65 }

theorem claim_C5_amended_witness :
    ((handleSaveAndTranscribe envC5loaded []).outcome = .saved ∧
      (handleSaveAndTranscribe envC5loaded []).recordings.length = 0 + 1) ∧
    ((handleSaveAndTranscribe envC5 []).outcome = .stuckAwaitingMetadata ∧
      (handleSaveAndTranscribe envC5 []).recordings = []) :=
  ⟨(claim_C5_amended envC5loaded [] "hi there" rfl rfl rfl rfl (Or.inl rfl)).1 65
      { summary := some "sum", sentiment := some "neutral", tags := some ["x"],
        highlights := none } rfl rfl rfl,
   (claim_C5_amended envC5 [] "hi there" rfl rfl rfl rfl (Or.inl rfl)).2 rfl⟩

/-! ### Counting lemmas for the graph claims -/

theorem lookupA_bumpCount_self (m : List (String × Nat)) (k : String) :
    lookupA (bumpCount m k) k = some (lookupCount m k + 1) := by
  induction m with
  | nil => simp [bumpCount, lookupA, lookupCount]
  | cons p rest ih =>
    obtain ⟨a, v⟩ := p
    by_cases h : a = k
    · subst h
      simp [bumpCount, lookupA, lookupCount]
    · simp [bumpCount, h, lookupA, lookupCount, ih]

theorem lookupA_bumpCount_ne (m : List (String × Nat)) (k k' : String) (h : k' ≠ k) :
    lookupA (bumpCount m k) k' = lookupA m k' := by
  have hk : ¬(k = k') := fun hk => h hk.symm
  induction m with
  | nil => simp [bumpCount, lookupA, hk]
  | cons p rest ih =>
    obtain ⟨a, v⟩ := p
    by_cases ha : a = k
    · subst ha
      simp [bumpCount, lookupA, hk]
    · by_cases ha' : a = k'
      · subst ha'
        simp [bumpCount, ha, lookupA]
      · simp [bumpCount, ha, lookupA, ha', ih]

theorem lookupCount_foldl_bumpCount (l : List String) :
    ∀ (m : List (String × Nat)) (k : String),
      lookupCount (l.foldl bumpCount m) k = lookupCount m k + l.count k := by
  induction l with
  | nil => intro m k; simp
  | cons x xs ih =>
    intro m k
    rw [List.foldl_cons, ih]
    by_cases h : k = x
    · subst h
      rw [lookupCount, lookupA_bumpCount_self]
      simp [List.count_cons, lookupCount]
      omega
    · rw [lookupCount, lookupA_bumpCount_ne m x k h]
      simp [List.count_cons, h, lookupCount]

theorem foldl_processTag_counts (tl : List String) :
    ∀ (tags : List String) (s : String) (acc : GraphAcc),
      (tl.foldl (processTag tags s) acc).tagCounts = tl.foldl bumpCount acc.tagCounts := by
  induction tl with
  | nil => intro tags s acc; rfl
  | cons x xs ih =>
    intro tags s acc
    rw [List.foldl_cons, List.foldl_cons, ih]
    rfl

theorem buildAcc_counts_gen (recs : List GRecording) :
    ∀ (acc : GraphAcc) (k : String),
      lookupCount (recs.foldl processRecording acc).tagCounts k =
        lookupCount acc.tagCounts k + occurrenceCount recs k := by
  induction recs with
  | nil => intro acc k; simp [occurrenceCount]
  | cons r rest ih =>
    intro acc k
    rw [List.foldl_cons, ih]
    have hpr : (processRecording acc r).tagCounts = r.tags.foldl bumpCount acc.tagCounts :=
      foldl_processTag_counts r.tags r.tags (gRecSentiment r) acc
    rw [hpr, lookupCount_foldl_bumpCount]
    simp [occurrenceCount]
    omega

theorem buildAcc_counts (recs : List GRecording) (k : String) :
    lookupCount (buildAcc recs).tagCounts k = occurrenceCount recs k := by
  have h := buildAcc_counts_gen recs ⟨[], [], []⟩ k
  simpa [buildAcc, lookupCount, lookupA] using h

/-! ### Origin lemmas: every node key and every connection pair comes from
some recording's tag array -/

theorem mem_fst_bumpCount (m : List (String × Nat)) (k x : String)
    (hx : x ∈ (bumpCount m k).map Prod.fst) : x ∈ m.map Prod.fst ∨ x = k := by
  induction m with
  | nil => simpa [bumpCount] using hx
  | cons p rest ih =>
    obtain ⟨a, v⟩ := p
    by_cases ha : a = k
    · subst ha
      simpa [bumpCount] using Or.inl (by simpa [bumpCount] using hx)
    · rw [bumpCount, if_neg ha] at hx
      simp only [List.map_cons, List.mem_cons] at hx
      rcases hx with h | h
      · exact Or.inl (by simp [h])
      · rcases ih h with h' | h'
        · exact Or.inl (by simp; right; simpa using h')
        · exact Or.inr h'

theorem mem_fst_foldl_bumpCount (l : List String) :
    ∀ (m : List (String × Nat)) (x : String),
      x ∈ ((l.foldl bumpCount m).map Prod.fst) → x ∈ m.map Prod.fst ∨ x ∈ l := by
  induction l with
  | nil => intro m x hx; exact Or.inl (by simpa using hx)
  | cons y ys ih =>
    intro m x hx
    rw [List.foldl_cons] at hx
    rcases ih (bumpCount m y) x hx with h | h
    · rcases mem_fst_bumpCount m y x h with h' | h'
      · exact Or.inl h'
      · exact Or.inr (by simp [h'])
    · exact Or.inr (by simp [h])

theorem mem_fst_buildAcc (recs : List GRecording) :
    ∀ (acc : GraphAcc) (x : String),
      x ∈ ((recs.foldl processRecording acc).tagCounts.map Prod.fst) →
        x ∈ acc.tagCounts.map Prod.fst ∨ ∃ r ∈ recs, x ∈ r.tags := by
  induction recs with
  | nil => intro acc x hx; exact Or.inl (by simpa using hx)
  | cons r rest ih =>
    intro acc x hx
    rw [List.foldl_cons] at hx
    rcases ih (processRecording acc r) x hx with h | h
    · have hpr : (processRecording acc r).tagCounts = r.tags.foldl bumpCount acc.tagCounts :=
        foldl_processTag_counts r.tags r.tags (gRecSentiment r) acc
      rw [hpr] at h
      rcases mem_fst_foldl_bumpCount r.tags acc.tagCounts x h with h' | h'
      · exact Or.inl h'
      · exact Or.inr ⟨r, by simp, h'⟩
    · obtain ⟨r', hr', hx'⟩ := h
      exact Or.inr ⟨r', by simp [hr'], hx'⟩

theorem mem_addConn (m : List (String × List String)) (k t : String)
    (p : String × List String) (hp : p ∈ addConn m k t) :
    ∀ x ∈ p.2, (∃ vs, (p.1, vs) ∈ m ∧ x ∈ vs) ∨ (p.1 = k ∧ x = t) := by
  induction m with
  | nil =>
    intro x hx
    simp only [addConn, List.mem_singleton] at hp
    subst hp
    simp only [List.mem_singleton] at hx
    exact Or.inr ⟨rfl, hx⟩
  | cons q rest ih =>
    obtain ⟨a, vs⟩ := q
    intro x hx
    by_cases ha : a = k
    · rw [addConn, if_pos ha] at hp
      rcases List.mem_cons.mp hp with h | h
      · subst h
        simp only at hx
        by_cases hmem : t ∈ vs
        · rw [if_pos hmem] at hx
          exact Or.inl ⟨vs, by simp, hx⟩
        · rw [if_neg hmem] at hx
          rcases List.mem_append.mp hx with h' | h'
          · exact Or.inl ⟨vs, by simp, h'⟩
          · exact Or.inr ⟨ha, by simpa using h'⟩
      · exact Or.inl ⟨p.2, by simp; right; exact h, hx⟩
    · rw [addConn, if_neg ha] at hp
      rcases List.mem_cons.mp hp with h | h
      · subst h
        exact Or.inl ⟨vs, by simp, hx⟩
      · rcases ih h x hx with ⟨vs', hvs', hx'⟩ | h'
        · exact Or.inl ⟨vs', by simp; right; exact hvs', hx'⟩
        · exact Or.inr h'

theorem mem_ensureKey (m : List (String × List String)) (k : String)
    (p : String × List String) (hp : p ∈ ensureKey m k) :
    ∀ x ∈ p.2, ∃ vs, (p.1, vs) ∈ m ∧ x ∈ vs := by
  induction m with
  | nil =>
    intro x hx
    simp only [ensureKey, List.mem_singleton] at hp
    subst hp
    simp at hx
  | cons q rest ih =>
    obtain ⟨a, vs⟩ := q
    intro x hx
    by_cases ha : a = k
    · rw [ensureKey, if_pos ha] at hp
      exact ⟨p.2, hp, hx⟩
    · rw [ensureKey, if_neg ha] at hp
      rcases List.mem_cons.mp hp with h | h
      · subst h
        exact ⟨vs, by simp, hx⟩
      · obtain ⟨vs', hvs', hx'⟩ := ih h x hx
        exact ⟨vs', by simp; right; exact hvs', hx'⟩

theorem addConn_fold (tag : String) (tl : List String) :
    ∀ (cs : List (String × List String)) (p : String × List String),
      p ∈ tl.foldl (fun cs other => if tag = other then cs else addConn cs tag other) cs →
      ∀ x ∈ p.2,
        (∃ vs, (p.1, vs) ∈ cs ∧ x ∈ vs) ∨ (p.1 = tag ∧ x ∈ tl ∧ tag ≠ x) := by
  induction tl with
  | nil =>
    intro cs p hp x hx
    exact Or.inl ⟨p.2, by simpa using hp, hx⟩
  | cons o rest ih =>
    intro cs p hp x hx
    rw [List.foldl_cons] at hp
    by_cases ho : tag = o
    · rw [if_pos ho] at hp
      rcases ih cs p hp x hx with h | ⟨h1, h2, h3⟩
      · exact Or.inl h
      · exact Or.inr ⟨h1, by simp [h2], h3⟩
    · rw [if_neg ho] at hp
      rcases ih (addConn cs tag o) p hp x hx with ⟨vs, hvs, hx'⟩ | ⟨h1, h2, h3⟩
      · rcases mem_addConn cs tag o (p.1, vs) hvs x hx' with h | ⟨h1, h2⟩
        · exact Or.inl h
        · subst h2
          exact Or.inr ⟨h1, by simp, ho⟩
      · exact Or.inr ⟨h1, by simp [h2], h3⟩

theorem processTag_conns (tags : List String) (s : String) (acc : GraphAcc) (tag : String)
    (p : String × List String) (hp : p ∈ (processTag tags s acc tag).tagConnections) :
    ∀ x ∈ p.2,
      (∃ vs, (p.1, vs) ∈ acc.tagConnections ∧ x ∈ vs) ∨
        (p.1 = tag ∧ x ∈ tags ∧ p.1 ≠ x) := by
  intro x hx
  rcases addConn_fold tag tags (ensureKey acc.tagConnections tag) p hp x hx with
    ⟨vs, hvs, hx'⟩ | ⟨h1, h2, h3⟩
  · exact Or.inl (mem_ensureKey acc.tagConnections tag (p.1, vs) hvs x hx')
  · exact Or.inr ⟨h1, h2, h1 ▸ h3⟩

theorem foldl_processTag_conns (tl : List String) :
    ∀ (tags : List String) (s : String) (acc : GraphAcc) (p : String × List String),
      p ∈ (tl.foldl (processTag tags s) acc).tagConnections →
      ∀ x ∈ p.2,
        (∃ vs, (p.1, vs) ∈ acc.tagConnections ∧ x ∈ vs) ∨
          (p.1 ∈ tl ∧ x ∈ tags ∧ p.1 ≠ x) := by
  induction tl with
  | nil =>
    intro tags s acc p hp x hx
    exact Or.inl ⟨p.2, by simpa using hp, hx⟩
  | cons o rest ih =>
    intro tags s acc p hp x hx
    rw [List.foldl_cons] at hp
    rcases ih tags s (processTag tags s acc o) p hp x hx with ⟨vs, hvs, hx'⟩ | ⟨h1, h2, h3⟩
    · rcases processTag_conns tags s acc o (p.1, vs) hvs x hx' with h | ⟨h1, h2, h3⟩
      · exact Or.inl h
      · exact Or.inr ⟨List.mem_cons.mpr (Or.inl h1), h2, h3⟩
    · exact Or.inr ⟨List.mem_cons.mpr (Or.inr h1), h2, h3⟩

theorem buildAcc_conns (recs : List GRecording) :
    ∀ (acc : GraphAcc) (p : String × List String),
      p ∈ (recs.foldl processRecording acc).tagConnections →
      ∀ x ∈ p.2,
        (∃ vs, (p.1, vs) ∈ acc.tagConnections ∧ x ∈ vs) ∨
          ∃ r ∈ recs, p.1 ∈ r.tags ∧ x ∈ r.tags ∧ p.1 ≠ x := by
  induction recs with
  | nil =>
    intro acc p hp x hx
    exact Or.inl ⟨p.2, by simpa using hp, hx⟩
  | cons r rest ih =>
    intro acc p hp x hx
    rw [List.foldl_cons] at hp
    rcases ih (processRecording acc r) p hp x hx with ⟨vs, hvs, hx'⟩ | ⟨r', hr', h⟩
    · rcases foldl_processTag_conns r.tags r.tags (gRecSentiment r) acc (p.1, vs) hvs x hx'
        with h | ⟨h1, h2, h3⟩
      · exact Or.inl h
      · exact Or.inr ⟨r, by simp, h1, h2, h3⟩
    · exact Or.inr ⟨r', by simp [hr'], h⟩

/-- Every emitted edge records its source entry, target and the minimum of
the two endpoint counts. -/
theorem mem_edgesOf (counts : List (String × Nat)) (conns : List (String × List String))
    (e : GEdge) (he : e ∈ edgesOf counts conns) :
    ∃ p ∈ conns, ∃ t ∈ p.2,
      (lookupCount counts t ≠ 0 ∧ strLtB p.1 t = true) ∧
      e = ⟨p.1 ++ "-" ++ t, p.1, t, min (lookupCount counts p.1) (lookupCount counts t)⟩ := by
  simp only [edgesOf, List.mem_flatMap, List.mem_filterMap] at he
  obtain ⟨p, hp, t, ht, hft⟩ := he
  by_cases hc : lookupCount counts t ≠ 0 ∧ strLtB p.1 t = true
  · rw [if_pos hc] at hft
    exact ⟨p, hp, t, ht, hc, (Option.some_injective _ hft).symm⟩
  · rw [if_neg hc] at hft
    exact absurd hft (by simp)

/-- C6 counterexample: a user with no tagged Recordings is shown the
hard-coded placeholder graph (five demo nodes, four demo edges), not an
empty graph — so the displayed nodes do not all originate from the user's
Recordings. -/
theorem claim_C6_counterexample :
    (generateKnowledgeGraph []).1 = initialNodes ∧
    (generateKnowledgeGraph []).1 ≠ [] ∧
    (generateKnowledgeGraph []).2 = initialEdges := by
  refine ⟨?_, ?_, ?_⟩ <;> decide

/-- C6 as amended: when the user has at least one tagged Recording, every
displayed node is a tag of one of the user's Recordings and every edge
joins two distinct tags co-occurring on one of them (the graph being
recomputed in full from that data); but when there are no tagged
Recordings the view falls back to the fixed hard-coded placeholder graph. -/
theorem claim_C6_amended (recs : List GRecording) :
    (recs = [] → generateKnowledgeGraph recs = (initialNodes, initialEdges)) ∧
    (recs ≠ [] →
      (∀ n ∈ (generateKnowledgeGraph recs).1, ∃ r ∈ recs, n.id ∈ r.tags) ∧
      (∀ e ∈ (generateKnowledgeGraph recs).2,
        ∃ r ∈ recs, e.source ∈ r.tags ∧ e.target ∈ r.tags ∧ e.source ≠ e.target)) := by
  constructor
  · intro h
    subst h
    rfl
  · intro hne
    have hie : recs.isEmpty = false := by
      cases recs with
      | nil => exact absurd rfl hne
      | cons r rest => rfl
    constructor
    · intro n hn
      rw [generateKnowledgeGraph] at hn
      simp only [hie, Bool.false_eq_true, if_false] at hn
      simp only [nodesOf, List.mem_map] at hn
      obtain ⟨p, hp, hpn⟩ := hn
      have hid : n.id = p.1 := by rw [← hpn]
      have hkey : p.1 ∈ (buildAcc recs).tagCounts.map Prod.fst :=
        List.mem_map.mpr ⟨p, hp, rfl⟩
      rcases mem_fst_buildAcc recs ⟨[], [], []⟩ p.1 hkey with h | h
      · simp at h
      · rw [hid]
        exact h
    · intro e he
      rw [generateKnowledgeGraph] at he
      simp only [hie, Bool.false_eq_true, if_false] at he
      obtain ⟨p, hp, t, ht, _, he⟩ :=
        mem_edgesOf (buildAcc recs).tagCounts (buildAcc recs).tagConnections e he
      rcases buildAcc_conns recs ⟨[], [], []⟩ p hp t ht with ⟨vs, hvs, _⟩ | ⟨r, hr, h1, h2, h3⟩
      · simp at hvs
      · refine ⟨r, hr, ?_, ?_, ?_⟩
        · rw [he]; exact h1
        · rw [he]; exact h2
        · rw [he]; exact h3

/-- The two-Recording corpus of C7: tags `["a","b"]` and `["b","c"]`. -/
def graphRecsC7 : List GRecording :=
  [⟨["a", "b"], some "positive"⟩, ⟨["b", "c"], some "negative"⟩]

theorem claim_C6_amended_witness :
    generateKnowledgeGraph [] = (initialNodes, initialEdges) ∧
    (∀ n ∈ (generateKnowledgeGraph graphRecsC7).1, ∃ r ∈ graphRecsC7, n.id ∈ r.tags) :=
  ⟨(claim_C6_amended []).1 rfl, ((claim_C6_amended graphRecsC7).2 (by decide)).1⟩

/-- C7: on the corpus with tag arrays `["a","b"]` and `["b","c"]`, graph
construction yields exactly the nodes `a,b,c` with occurrence counts
`1,2,1` and exactly the edges `a-b` and `b-c` (no `a-c`), each of weight 1;
and in general, on any non-empty corpus every emitted edge's weight
(`connectionStrength`) is the minimum of its two endpoints' global
occurrence counts. -/
theorem claim_C7 :
    (((generateKnowledgeGraph graphRecsC7).1.map fun n => (n.id, n.count)) =
        [("a", 1), ("b", 2), ("c", 1)] ∧
      ((generateKnowledgeGraph graphRecsC7).2.map fun e => (e.source, e.target)) =
        [("a", "b"), ("b", "c")] ∧
      ((generateKnowledgeGraph graphRecsC7).2.map fun e => e.strength) = [1, 1]) ∧
    ∀ (recs : List GRecording) (e : GEdge), recs ≠ [] →
      e ∈ (generateKnowledgeGraph recs).2 →
      e.strength = min (occurrenceCount recs e.source) (occurrenceCount recs e.target) := by
  constructor
  · refine ⟨?_, ?_, ?_⟩ <;> decide
  · intro recs e hne he
    have hie : recs.isEmpty = false := by
      cases recs with
      | nil => exact absurd rfl hne
      | cons r rest => rfl
    rw [generateKnowledgeGraph] at he
    simp only [hie, Bool.false_eq_true, if_false] at he
    obtain ⟨p, _, t, _, _, he⟩ :=
      mem_edgesOf (buildAcc recs).tagCounts (buildAcc recs).tagConnections e he
    rw [he]
    show min (lookupCount (buildAcc recs).tagCounts p.1)
        (lookupCount (buildAcc recs).tagCounts t) = _
    rw [buildAcc_counts, buildAcc_counts]

/-- The `a-b` edge of the C7 corpus. -/
def edgeAB : GEdge := { id := "a-b", source := "a", target := "b", strength := 1 }

theorem claim_C7_witness :
    edgeAB ∈ (generateKnowledgeGraph graphRecsC7).2 ∧
    edgeAB.strength =
      min (occurrenceCount graphRecsC7 edgeAB.source)
        (occurrenceCount graphRecsC7 edgeAB.target) :=
  ⟨by decide, claim_C7.2 graphRecsC7 edgeAB (by decide) (by decide)⟩

/-! ### Dominant-sentiment lemmas (claim C8)

`getDominantSentiment` reduces the entries of an insertion-ordered counts
object; the entry order is the order in which sentiment values are first
encountered.  `dedupFO` captures that encounter order independently. -/

/-- The distinct values of a list in order of first occurrence. -/
def dedupFO : List String → List String
  | [] => []
  | x :: xs => x :: (dedupFO xs).filter (fun y => y ≠ x)

theorem mem_dedupFO (l : List String) (x : String) : x ∈ dedupFO l ↔ x ∈ l := by
  induction l with
  | nil => simp [dedupFO]
  | cons y ys ih =>
    simp only [dedupFO, List.mem_cons, List.mem_filter]
    constructor
    · rintro (h | ⟨h, _⟩)
      · exact Or.inl h
      · exact Or.inr (ih.mp h)
    · rintro (h | h)
      · exact Or.inl h
      · by_cases hxy : x = y
        · exact Or.inl hxy
        · exact Or.inr ⟨ih.mpr h, by simpa using hxy⟩

theorem dedupFO_nodup (l : List String) : (dedupFO l).Nodup := by
  induction l with
  | nil => simp [dedupFO]
  | cons y ys ih =>
    rw [dedupFO, List.nodup_cons]
    refine ⟨?_, ih.filter _⟩
    intro hy
    rcases List.mem_filter.mp hy with ⟨_, hne⟩
    simp at hne

theorem keys_bumpCount (m : List (String × Nat)) (k : String) :
    (bumpCount m k).map Prod.fst =
      if k ∈ m.map Prod.fst then m.map Prod.fst else m.map Prod.fst ++ [k] := by
  induction m with
  | nil => simp [bumpCount]
  | cons p rest ih =>
    obtain ⟨a, v⟩ := p
    by_cases ha : a = k
    · subst ha
      simp [bumpCount]
    · have hka : ¬(k = a) := fun h => ha h.symm
      rw [bumpCount, if_neg ha]
      by_cases hk : k ∈ rest.map Prod.fst
      · simp [ih, hk, hka]
      · simp [ih, hk, hka]

theorem keys_foldl_bumpCount (l : List String) :
    ∀ m : List (String × Nat),
      (l.foldl bumpCount m).map Prod.fst =
        m.map Prod.fst ++ (dedupFO l).filter (fun k => k ∉ m.map Prod.fst) := by
  induction l with
  | nil => intro m; simp [dedupFO]
  | cons x xs ih =>
    intro m
    rw [List.foldl_cons, ih (bumpCount m x), keys_bumpCount]
    by_cases hx : x ∈ m.map Prod.fst
    · rw [if_pos hx, dedupFO, List.filter_cons]
      have hxd : ¬(x ∉ m.map Prod.fst) := by simpa using hx
      rw [if_neg (by simpa using hxd), List.filter_filter]
      congr 1
      apply List.filter_congr
      intro y _
      by_cases hy : y ∈ m.map Prod.fst
      · simp [hy]
      · have : y ≠ x := fun h => hy (h ▸ hx)
        simp [hy, this]
    · rw [if_neg hx, dedupFO, List.filter_cons, if_pos (by simpa using hx),
        List.filter_filter]
      rw [List.append_assoc, List.singleton_append]
      congr 2
      apply List.filter_congr
      intro y _
      by_cases hy : y ∈ m.map Prod.fst
      · simp [hy]
      · by_cases hyx : y = x
        · subst hyx
          simp [hy]
        · simp [hy, hyx]

theorem keys_countsOf (l : List String) :
    (l.foldl bumpCount []).map Prod.fst = dedupFO l := by
  rw [keys_foldl_bumpCount l []]
  simp

theorem countsOf_keys_nodup (l : List String) :
    ((l.foldl bumpCount []).map Prod.fst).Nodup := by
  rw [keys_countsOf]
  exact dedupFO_nodup l

theorem mem_lookupA (m : List (String × Nat)) (hnd : (m.map Prod.fst).Nodup)
    (p : String × Nat) (hp : p ∈ m) : lookupA m p.1 = some p.2 := by
  induction m with
  | nil => simp at hp
  | cons q rest ih =>
    rw [List.map_cons, List.nodup_cons] at hnd
    rcases List.mem_cons.mp hp with h | h
    · subst h
      simp [lookupA]
    · have hq : q.1 ≠ p.1 := by
        intro hqe
        exact hnd.1 (hqe ▸ List.mem_map.mpr ⟨p, h, rfl⟩)
      rw [lookupA, if_neg hq]
      exact ih hnd.2 h

/-- Every entry of the counts object holds its key's occurrence count. -/
theorem countsOf_val (l : List String) (p : String × Nat) (hp : p ∈ l.foldl bumpCount []) :
    p.2 = l.count p.1 := by
  have h1 : lookupA (l.foldl bumpCount []) p.1 = some p.2 :=
    mem_lookupA _ (countsOf_keys_nodup l) p hp
  have h2 : lookupCount (l.foldl bumpCount []) p.1 = l.count p.1 := by
    rw [lookupCount_foldl_bumpCount]
    simp [lookupCount, lookupA]
  rw [lookupCount, h1] at h2
  exact h2

/-- The fold `reduce((a, b) => counts[a] > counts[b] ? a : b)` returns the
last entry attaining the maximal value: everything before it is `≤`,
everything after it is `<`. -/
theorem champion_spec (es : List (String × Nat)) :
    ∀ a : String × Nat,
      ∃ pre post, a :: es = pre ++ (champion a es) :: post ∧
        (∀ p ∈ pre, p.2 ≤ (champion a es).2) ∧
        (∀ p ∈ post, p.2 < (champion a es).2) := by
  induction es with
  | nil =>
    intro a
    exact ⟨[], [], rfl, by simp, by simp⟩
  | cons b rest ih =>
    intro a
    by_cases hab : a.2 > b.2
    · have hch : champion a (b :: rest) = champion a rest := by
        rw [champion, if_pos hab]
      obtain ⟨pre, post, hdec, hpre, hpost⟩ := ih a
      cases pre with
      | nil =>
        have ha : champion a rest = a := by
          have := hdec
          rw [List.nil_append] at this
          exact (List.cons.injEq .. ▸ this).1.symm
        refine ⟨[], b :: rest, ?_, by simp, ?_⟩
        · rw [hch, ha]
          rfl
        · intro p hp
          rw [hch, ha]
          rcases List.mem_cons.mp hp with h | h
          · subst h
            exact hab
          · have hpost' : rest = post := by
              have := hdec
              rw [List.nil_append] at this
              exact (List.cons.injEq .. ▸ this).2
            rw [ha] at hpost
            exact hpost p (hpost' ▸ h)
      | cons q pre' =>
        have hq : a = q ∧ rest = pre' ++ champion a rest :: post := by
          have h := hdec
          rw [List.cons_append] at h
          exact ⟨(List.cons.injEq .. ▸ h).1, (List.cons.injEq .. ▸ h).2⟩
        obtain ⟨hq1, hq2⟩ := hq
        subst hq1
        refine ⟨a :: b :: pre', post, ?_, ?_, ?_⟩
        · rw [hch, List.cons_append, List.cons_append, ← hq2]
        · intro p hp
          rw [hch]
          have haq : a.2 ≤ (champion a rest).2 := hpre a (List.mem_cons_self _ _)
          rcases List.mem_cons.mp hp with h | h
          · subst h
            exact haq
          · rcases List.mem_cons.mp h with h' | h'
            · subst h'
              omega
            · exact hpre p (List.mem_cons_of_mem _ h')
        · intro p hp
          rw [hch]
          exact hpost p hp
    · have hch : champion a (b :: rest) = champion b rest := by
        rw [champion, if_neg hab]
      obtain ⟨pre, post, hdec, hpre, hpost⟩ := ih b
      have hble : b.2 ≤ (champion b rest).2 := by
        cases pre with
        | nil =>
          have hb : champion b rest = b := by
            have := hdec
            rw [List.nil_append] at this
            exact (List.cons.injEq .. ▸ this).1.symm
          rw [hb]
        | cons q pre' =>
          have hq1 : b = q := by
            have h := hdec
            rw [List.cons_append] at h
            exact (List.cons.injEq .. ▸ h).1
          subst hq1
          exact hpre b (List.mem_cons_self _ _)
      refine ⟨a :: pre, post, ?_, ?_, ?_⟩
      · rw [hch, List.cons_append, ← hdec]
      · intro p hp
        rw [hch]
        rcases List.mem_cons.mp hp with h | h
        · subst h
          omega
        · exact hpre p h
      · intro p hp
        rw [hch]
        exact hpost p hp

/-- C8 counterexample: on the tied list `["positive", "negative"]` the code
returns `"negative"`, the later-encountered of the two equally counted
sentiments, not the first-encountered `"positive"` the claim promises. -/
theorem claim_C8_counterexample :
    getDominantSentiment ["positive", "negative"] = some "negative" ∧
    (["positive", "negative"] : List String).count "positive" =
      (["positive", "negative"] : List String).count "negative" ∧
    ("negative" : String) ≠ "positive" := by
  refine ⟨?_, ?_, ?_⟩ <;> decide

/-- C8 as amended: for every non-empty sentiments list,
`getDominantSentiment` returns a sentiment with the greatest occurrence
count, but ties are broken toward the *last*-encountered value: in
first-encounter order, every sentiment listed after the returned one has a
strictly smaller count, so any other sentiment tying the maximum was
encountered earlier. -/
theorem claim_C8_amended (sentiments : List String) (hne : sentiments ≠ []) :
    ∃ c pre post,
      getDominantSentiment sentiments = some c ∧
      c ∈ sentiments ∧
      dedupFO sentiments = pre ++ c :: post ∧
      (∀ s ∈ sentiments, sentiments.count s ≤ sentiments.count c) ∧
      (∀ s ∈ post, sentiments.count s < sentiments.count c) := by
  have hkeys : (sentiments.foldl bumpCount []).map Prod.fst = dedupFO sentiments :=
    keys_countsOf sentiments
  have hesne : sentiments.foldl bumpCount [] ≠ [] := by
    intro h
    cases sentiments with
    | nil => exact hne rfl
    | cons x xs =>
      rw [h] at hkeys
      rw [dedupFO] at hkeys
      exact List.cons_ne_nil _ _ hkeys.symm
  obtain ⟨e, rest, hes⟩ := List.exists_cons_of_ne_nil hesne
  set ch := champion e rest with hchdef
  obtain ⟨pre, post, hdec, hpre, hpost⟩ := champion_spec rest e
  have hval : ∀ p : String × Nat, p ∈ sentiments.foldl bumpCount [] →
      p.2 = sentiments.count p.1 := countsOf_val sentiments
  have hmemch : ch ∈ sentiments.foldl bumpCount [] := by
    rw [hes, hdec]
    exact List.mem_append_right _ (List.mem_cons_self _ _)
  have hchval : ch.2 = sentiments.count ch.1 := hval ch hmemch
  refine ⟨ch.1, pre.map Prod.fst, post.map Prod.fst, ?_, ?_, ?_, ?_, ?_⟩
  · rw [getDominantSentiment, hes]
  · rw [← mem_dedupFO, ← hkeys, hes]
    exact List.mem_map.mpr ⟨ch, by rw [hdec]; exact List.mem_append_right _ (List.mem_cons_self _ _), rfl⟩
  · rw [← hkeys, hes, hdec]
    simp
  · intro s hs
    have hsk : s ∈ (sentiments.foldl bumpCount []).map Prod.fst := by
      rw [hkeys, mem_dedupFO]
      exact hs
    obtain ⟨p, hp, hps⟩ := List.mem_map.mp hsk
    have hple : p.2 ≤ ch.2 := by
      have hpmem : p ∈ e :: rest := by rw [← hes]; exact hp
      rw [hdec] at hpmem
      rcases List.mem_append.mp hpmem with h | h
      · exact hpre p h
      · rcases List.mem_cons.mp h with h' | h'
        · subst h'
          exact le_refl _
        · exact le_of_lt (hpost p h')
    rw [← hps, ← hval p hp, ← hchval]
    exact hple
  · intro s hs
    obtain ⟨p, hp, hps⟩ := List.mem_map.mp hs
    have hpmem : p ∈ sentiments.foldl bumpCount [] := by
      rw [hes, hdec]
      exact List.mem_append_right _ (List.mem_cons_of_mem _ hp)
    have hplt : p.2 < ch.2 := hpost p hp
    rw [← hps, ← hval p hpmem, ← hchval]
    exact hplt

theorem claim_C8_amended_witness :
    ∃ c pre post,
      getDominantSentiment ["positive", "negative"] = some c ∧
      c ∈ (["positive", "negative"] : List String) ∧
      dedupFO ["positive", "negative"] = pre ++ c :: post ∧
      (∀ s ∈ (["positive", "negative"] : List String),
        (["positive", "negative"] : List String).count s ≤
          (["positive", "negative"] : List String).count c) ∧
      (∀ s ∈ post,
        (["positive", "negative"] : List String).count s <
          (["positive", "negative"] : List String).count c) :=
  claim_C8_amended ["positive", "negative"] (by decide)

/-- The C9 corpus: one Recording titled `Team Sync` whose transcript
contains `roadmap`. -/
def teamSync : SRecording :=
  { id := "rec1", title := some "Team Sync"
    transcription := some "We discussed the roadmap for the quarter."
    summary := some "Roadmap discussion", tags := some ["meeting"]
    audio_url := "https://store/u1/5.webm", created_at := "2025-08-06" }

/-- C9 counterexample: the single-space query is a non-empty query and the
claimed matching criterion holds for it against the Team Sync recording (a
space occurs in the lowercased title), yet the search returns no results,
because the handler clears the results for any query that trims to the
empty string. -/
theorem claim_C9_counterexample :
    (" " : String) ≠ "" ∧ specMatches " " teamSync = true ∧
    handleSearch " " [teamSync] = [] := by
  refine ⟨?_, ?_, ?_⟩ <;> decide

/-- C9 as amended: for every query that still has content after trimming
whitespace, the search returns exactly the recordings whose title,
transcription, summary or some tag contains the lowercased query
(case-insensitive substring); a whitespace-only (though non-empty) query
instead returns no results even when it would match.  On the concrete
corpus, the queries `team`, `Sync` and `roadmap` each return the
recording, and a query matching nothing returns the empty result list. -/
theorem claim_C9_amended :
    (∀ (query : String) (allRecordings : List SRecording),
      trimStr query ≠ "" → (allRecordings.map SRecording.id).Nodup →
      ∀ r ∈ allRecordings,
        ((handleSearch query allRecordings).any fun res => res.id = r.id) =
          specMatches query r) ∧
    (handleSearch "team" [teamSync]).map SearchResult.id = ["rec1"] ∧
    (handleSearch "Sync" [teamSync]).map SearchResult.id = ["rec1"] ∧
    (handleSearch "roadmap" [teamSync]).map SearchResult.id = ["rec1"] ∧
    handleSearch "zebra" [teamSync] = [] := by
  refine ⟨?_, by decide, by decide, by decide, by decide⟩
  intro q all hq hnd r hr
  have hms : ∀ x : SRecording, matchesQuery q x = specMatches q x := fun _ => rfl
  rw [handleSearch, if_neg hq]
  by_cases hsm : specMatches q r = true
  · rw [hsm]
    rw [List.any_eq_true]
    refine ⟨toSearchResult r, ?_, by rw [show (toSearchResult r).id = r.id from rfl]; simp⟩
    exact List.mem_map.mpr ⟨r, List.mem_filter.mpr ⟨hr, by rw [hms]; exact hsm⟩, rfl⟩
  · rw [Bool.not_eq_true] at hsm
    rw [hsm]
    rw [List.any_eq_false]
    intro res hres
    obtain ⟨a, ha, hares⟩ := List.mem_map.mp hres
    obtain ⟨hamem, hamatch⟩ := List.mem_filter.mp ha
    intro hid
    have haid : a.id = r.id := by
      rw [← hares] at hid
      simpa using hid
    have har : a = r := List.inj_on_of_nodup_map hnd hamem hr haid
    rw [har, hms] at hamatch
    rw [hamatch] at hsm
    exact Bool.true_eq_false ▸ hsm

theorem claim_C9_amended_witness :
    ((handleSearch "team" [teamSync]).any fun res => res.id = teamSync.id) =
      specMatches "team" teamSync :=
  claim_C9_amended.1 "team" [teamSync] (by decide) (by decide) teamSync
    (List.mem_singleton.mpr rfl)

end EchoVault
